import Mathlib

set_option linter.dupNamespace false
set_option linter.unusedVariables false

/-!
Shallow embedding of the content-organization and lifecycle core of the
`alnah/fla` blogging domain layer: structured errors (internal/domain/kernel),
the slug generator (internal/domain/shared), the category hierarchy
(internal/domain/category) and the post status state machine
(internal/domain/post).  Go strings are Lean `String`s (Go's
`utf8.RuneCountInString` is `String.length`), `time.Time` is `Int`
(`a.After b` is `a > b`), pointers are `Option`, and Go's multiple return
values `(T, error)` are `T × Option Kernel.Error`.
-/

namespace Kernel

/-- Application error codes, from internal/domain/kernel (errors file). -/
def EConflict : String := "conflict"

def EInternal : String := "internal"

def EInvalid : String := "invalid"

def EForbidden : String := "forbidden"

def ENotFound : String := "not_found"

/-- Generic message for internal errors. -/
def MInternal : String := "An internal error has occurred. Please contact technical support."

/-- Structured error with operation context and cause chaining, modelling
`kernel.Error {Code, Message, Operation, Cause *Error}`.  A Go error whose
`Cause` is nil is `base`; one whose `Cause` points to another `*Error` is
`wrap` (every error built by this domain layer is a `*kernel.Error`). -/
inductive Error : Type where
  | base (code message operation : String)
  | wrap (code message operation : String) (cause : Error)
deriving Repr, DecidableEq

/-- Code of the outermost frame. -/
def Error.code : Error → String
  | .base c _ _ => c
  | .wrap c _ _ _ => c

/-- Walks the cause chain for the most specific code, modelling
`kernel.ErrorCode` on a non-nil `*Error`: a frame with a non-empty `Code`
wins, an exhausted chain yields `EInternal`. -/
def Error.codeOf : Error → String
  | .base c _ _ => if c ≠ "" then c else EInternal
  | .wrap c _ _ e => if c ≠ "" then c else e.codeOf

/-- Models `kernel.ErrorCode err` where `err` may be nil (`none`). -/
def ErrorCode : Option Error → String
  | none => ""
  | some e => e.codeOf

/-- Whitespace per Go's `unicode.IsSpace` (the rune set `strings.TrimSpace`
trims): ASCII space characters plus the Unicode White_Space code points. -/
def goIsSpace (c : Char) : Bool :=
  c.toNat = 0x20 || (0x9 ≤ c.toNat && c.toNat ≤ 0xD) ||
  c.toNat = 0x85 || c.toNat = 0xA0 || c.toNat = 0x1680 ||
  (0x2000 ≤ c.toNat && c.toNat ≤ 0x200A) ||
  c.toNat = 0x2028 || c.toNat = 0x2029 || c.toNat = 0x202F ||
  c.toNat = 0x205F || c.toNat = 0x3000

/-- Drops the longest suffix of elements satisfying `p`. -/
def dropRightWhile (p : Char → Bool) (l : List Char) : List Char :=
  (l.reverse.dropWhile p).reverse

/-- Models Go `strings.TrimSpace` on the rune list. -/
def goTrimSpaceList (l : List Char) : List Char :=
  dropRightWhile goIsSpace (l.dropWhile goIsSpace)

/-- Models Go `strings.TrimSpace`. -/
def goTrimSpace (s : String) : String :=
  ⟨goTrimSpaceList s.data⟩

/-- Models Go `strings.Trim s cut` for a single-character cutset. -/
def goTrimChar (s : String) (cut : Char) : String :=
  ⟨dropRightWhile (fun c => c = cut) (s.data.dropWhile (fun c => c = cut))⟩

/-- Models `kernel.ErrMissing`. -/
def ErrMissing (field : String) : String := "Missing " ++ field ++ "."

/-- Models `kernel.ErrLen`. -/
def ErrLen (field : String) (min max : Nat) : String :=
  field ++ " must be between " ++ toString min ++ " and " ++ toString max ++ " characters."

/-- Models `kernel.ErrGt`. -/
def ErrGt (field : String) (min : Nat) : String :=
  field ++ " must be greater than " ++ toString min ++ " characters."

/-- Models `kernel.ErrLt`. -/
def ErrLt (field : String) (max : Nat) : String :=
  field ++ " must be less than " ++ toString max ++ " characters."

/-- Models `kernel.ValidatePresence`: a field must be non-blank. -/
def ValidatePresence (field value operation : String) : Option Error :=
  if goTrimSpace value = "" then
    some (.base EInvalid (ErrMissing field) operation)
  else none

/-- Models `kernel.ValidateLength` (rune count within min/max). -/
def ValidateLength (field value : String) (min max : Nat) (operation : String) : Option Error :=
  if value.length < min || value.length > max then
    some (.base EInvalid (ErrLen field min max) operation)
  else none

/-- Models `kernel.ValidateMinLength`. -/
def ValidateMinLength (field value : String) (min : Nat) (operation : String) : Option Error :=
  if value.length < min then
    some (.base EInvalid (ErrGt field min) operation)
  else none

/-- Models `kernel.ValidateMaxLength`. -/
def ValidateMaxLength (field value : String) (max : Nat) (operation : String) : Option Error :=
  if value.length > max then
    some (.base EInvalid (ErrLt field max) operation)
  else none

/-- Models `kernel.ID[T]`, a validated string identifier.  The `%T`-derived
entity name in the message is passed explicitly. -/
def ID.Validate (typeName id : String) : Option Error :=
  if goTrimSpace id = "" then
    some (.base EInvalid ("Missing " ++ typeName ++ " ID.") "ID.Validate")
  else none

/-- Models Go `strings.Split s sep` for a single-character separator, on
rune lists; `acc` accumulates the current field in reverse. -/
def goSplitGo (sep : Char) (acc : List Char) : List Char → List (List Char)
  | [] => [acc.reverse]
  | c :: rest =>
    if c = sep then acc.reverse :: goSplitGo sep [] rest
    else goSplitGo sep (c :: acc) rest

/-- Models Go `strings.Split s sep` for a single-character separator. -/
def goSplitChar (sep : Char) (l : List Char) : List (List Char) :=
  goSplitGo sep [] l

/-- Scheme of a URL, modelling the scheme extraction of `net/url.Parse`
(the prefix before the first colon when it is a well-formed scheme,
lowercased by Parse; empty otherwise).  Parse failures, which require
control characters or malformed escapes, are not modelled. -/
def urlScheme (s : String) : String :=
  if s.data.contains ':' then
    let head := s.data.takeWhile (fun c => c ≠ ':')
    if head ≠ [] &&
       head.all (fun c =>
         (0x61 ≤ c.toNat && c.toNat ≤ 0x7A) || (0x41 ≤ c.toNat && c.toNat ≤ 0x5A) ||
         (0x30 ≤ c.toNat && c.toNat ≤ 0x39) || c = '+' || c = '-' || c = '.') &&
       (head.head?.elim false (fun c =>
         (0x61 ≤ c.toNat && c.toNat ≤ 0x7A) || (0x41 ≤ c.toNat && c.toNat ≤ 0x5A)))
    then ⟨head.map (fun c =>
      if 0x41 ≤ c.toNat && c.toNat ≤ 0x5A then Char.ofNat (c.toNat + 0x20) else c)⟩
    else ""
  else ""

def MInvalidURLScheme : String := "URL must use http or https scheme."

/-- Models `kernel.URL[T].Validate`: empty is allowed (optional field),
otherwise the scheme must be http or https. -/
def URL.Validate (u : String) : Option Error :=
  if u = "" then none
  else if urlScheme u ≠ "http" && urlScheme u ≠ "https" then
    some (.wrap "" "" "URL.Validate" (.base EInvalid MInvalidURLScheme "URL.validateScheme"))
  else none

/-- Models `kernel.Clock`, the injected time source: `now` is what `Now()`
returns for the lifetime of the entity. -/
structure Clock where
  now : Int
deriving Repr, DecidableEq

end Kernel

namespace Shared

def MinTitleLength : Nat := 10

def MaxTitleLength : Nat := 100

def MinDescriptionLength : Nat := 0

def MaxDescriptionLength : Nat := 300

def MaxSlugLength : Nat := MaxTitleLength + 10

def MSlugInvalidChars : String := "Slug contains invalid characters."

def MSlugGeneration : String := "Slug could not be generated."

/-- The `transliterationMap` of internal/domain/shared: fixed substitutions
for accented Latin letters, symbols and currency signs, as an association
list (the Go map has distinct keys, so lookup order is irrelevant). -/
def transliterationMap : List (Char × String) :=
  [('À', "A"), ('à', "a"), ('Â', "A"), ('â', "a"), ('Ä', "A"), ('ä', "a"),
   ('Æ', "AE"), ('æ', "ae"), ('Ç', "C"), ('ç', "c"), ('È', "E"), ('è', "e"),
   ('É', "E"), ('é', "e"), ('Ê', "E"), ('ê', "e"), ('Ë', "E"), ('ë', "e"),
   ('Î', "I"), ('î', "i"), ('Ï', "I"), ('ï', "i"), ('Ô', "O"), ('ô', "o"),
   ('Œ', "OE"), ('œ', "oe"), ('Ù', "U"), ('ù', "u"), ('Û', "U"), ('û', "u"),
   ('Ü', "U"), ('ü', "u"), ('Ÿ', "Y"), ('ÿ', "y"),
   ('Á', "A"), ('á', "a"), ('Í', "I"), ('í', "i"), ('Ñ', "N"), ('ñ', "n"),
   ('Ó', "O"), ('ó', "o"), ('Ú', "U"), ('ú', "u"), ('¿', ""), ('¡', ""),
   ('Ã', "A"), ('ã', "a"), ('Õ', "O"), ('õ', "o"),
   ('Ð', "D"), ('ð', "d"), ('Þ', "TH"), ('þ', "th"),
   ('Ł', "L"), ('ł', "l"), ('Ą', "A"), ('ą', "a"), ('Ć', "C"), ('ć', "c"),
   ('Ę', "E"), ('ę', "e"), ('Ń', "N"), ('ń', "n"), ('Ś', "S"), ('ś', "s"),
   ('Ź', "Z"), ('ź', "z"), ('Ż', "Z"), ('ż', "z"),
   ('Ö', "O"), ('ö', "o"), ('ß', "ss"),
   ('Å', "A"), ('å', "a"), ('Ø', "O"), ('ø', "o"),
   ('&', "-"), ('@', "-"), ('°', "-"),
   ('€', ""), ('£', ""), ('$', "")]

/-- Models `transliterate`: substitutes mapped runes, keeps the rest. -/
def transliterate (s : String) : String :=
  ⟨(s.data.map (fun c =>
      match transliterationMap.lookup c with
      | some r => r.data
      | none => [c])).flatten⟩

/-- Models Go `strings.ToLower` (per-rune `unicode.ToLower`) restricted to
the ranges this pipeline feeds it: ASCII letters and the Latin-1 uppercase
letters À–Þ (except ×); other runes are unchanged. -/
def goToLowerChar (c : Char) : Char :=
  if 0x41 ≤ c.toNat && c.toNat ≤ 0x5A then Char.ofNat (c.toNat + 0x20)
  else if 0xC0 ≤ c.toNat && c.toNat ≤ 0xDE && c.toNat ≠ 0xD7 then Char.ofNat (c.toNat + 0x20)
  else c

/-- Models Go `strings.ToLower`. -/
def goToLower (s : String) : String :=
  ⟨s.data.map goToLowerChar⟩

/-- Base letters of the Latin-1 letters that carry a canonical
decomposition into base + combining mark. -/
def accentBaseMap : List (Char × Char) :=
  [('à', 'a'), ('á', 'a'), ('â', 'a'), ('ã', 'a'), ('ä', 'a'), ('å', 'a'),
   ('ç', 'c'), ('è', 'e'), ('é', 'e'), ('ê', 'e'), ('ë', 'e'),
   ('ì', 'i'), ('í', 'i'), ('î', 'i'), ('ï', 'i'), ('ñ', 'n'),
   ('ò', 'o'), ('ó', 'o'), ('ô', 'o'), ('õ', 'o'), ('ö', 'o'),
   ('ù', 'u'), ('ú', 'u'), ('û', 'u'), ('ü', 'u'), ('ý', 'y'), ('ÿ', 'y'),
   ('À', 'A'), ('Á', 'A'), ('Â', 'A'), ('Ã', 'A'), ('Ä', 'A'), ('Å', 'A'),
   ('Ç', 'C'), ('È', 'E'), ('É', 'E'), ('Ê', 'E'), ('Ë', 'E'),
   ('Ì', 'I'), ('Í', 'I'), ('Î', 'I'), ('Ï', 'I'), ('Ñ', 'N'),
   ('Ò', 'O'), ('Ó', 'O'), ('Ô', 'O'), ('Õ', 'O'), ('Ö', 'O'),
   ('Ù', 'U'), ('Ú', 'U'), ('Û', 'U'), ('Ü', 'U'), ('Ý', 'Y')]

/-- Models the `accentRemover` transformer chain
`transform.Chain(norm.NFD, runes.Remove(runes.In(unicode.Mn)), norm.NFC)`
restricted to the Latin-1 range: a precomposed letter decomposes to its base
letter with its combining marks removed, a standalone combining mark
(U+0300–U+036F) is removed, and every other rune is unchanged. -/
def stripMarkChar (c : Char) : List Char :=
  match accentBaseMap.lookup c with
  | some b => [b]
  | none => if 0x300 ≤ c.toNat && c.toNat ≤ 0x36F then [] else [c]

/-- Applies the `accentRemover` model to a whole string (these transformers
never fail on well-formed Unicode text, so the Go error branch is dead). -/
def removeAccents (s : String) : String :=
  ⟨(s.data.map stripMarkChar).flatten⟩

/-- A rune matched by `[a-z0-9]` (Go writes the range tests on rune values;
they are written on code points here). -/
def isSlugAlnum (c : Char) : Bool :=
  (0x61 ≤ c.toNat && c.toNat ≤ 0x7A) || (0x30 ≤ c.toNat && c.toNat ≤ 0x39)

/-- A rune allowed in a finished slug: `[a-z0-9-]`. -/
def isSlugChar (c : Char) : Bool :=
  isSlugAlnum c || c = '-'

/-- Models `nonAlphaRe.ReplaceAllString s "-"` (`nonAlphaRe` is
`[^a-z0-9]+`): each maximal run of non-alphanumeric runes becomes a single
hyphen.  The flag records whether the scan is inside such a run. -/
def collapseGo : Bool → List Char → List Char
  | _, [] => []
  | inRun, c :: rest =>
    if isSlugAlnum c then c :: collapseGo false rest
    else if inRun then collapseGo true rest
    else '-' :: collapseGo true rest

/-- Entry point of the run-collapsing replacement (not inside a run). -/
def collapseNonAlnum (l : List Char) : List Char :=
  collapseGo false l

/-- Models `containsAlphanumeric`. -/
def containsAlphanumeric (l : List Char) : Bool :=
  l.any isSlugAlnum

/-- Models `strings.Trim s "-"` on the rune list. -/
def trimHyphens (l : List Char) : List Char :=
  Kernel.dropRightWhile (fun c => c = '-') (l.dropWhile (fun c => c = '-'))

/-- Models `generateSlug`: trim, transliterate, lowercase, strip accents,
collapse non-alphanumeric runs to hyphens, trim hyphens, validate, and
truncate to `MaxSlugLength` runes re-trimming trailing hyphens. -/
def generateSlug (input : String) : Except Kernel.Error String :=
  let t := Kernel.goTrimSpace input
  if t = "" then .error (.base Kernel.EInvalid MSlugGeneration "generateSlug")
  else
    let s := removeAccents (goToLower (transliterate t))
    let r := trimHyphens (collapseNonAlnum s.data)
    if r = [] || !(containsAlphanumeric r) then
      .error (.base Kernel.EInvalid MSlugGeneration "generateSlug")
    else if r.length > MaxSlugLength then
      .ok ⟨Kernel.dropRightWhile (fun c => c = '-') (r.take MaxSlugLength)⟩
    else .ok ⟨r⟩

/-- State machine for `slugFormatRe`, i.e. `^[a-z0-9]+(?:-[a-z0-9]+)*$`,
after the leading alphanumeric has been read: in state `true` the previous
rune was alphanumeric (accepting), in state `false` it was a hyphen. -/
def slugDFA : Bool → List Char → Bool
  | afterAlnum, [] => afterAlnum
  | afterAlnum, c :: rest =>
    if isSlugAlnum c then slugDFA true rest
    else if afterAlnum && c = '-' then slugDFA false rest
    else false

/-- Models `slugFormatRe.MatchString`: one or more `[a-z0-9]` runs
separated by single hyphens, no leading or trailing hyphen. -/
def slugFormatMatch (s : String) : Bool :=
  match s.data with
  | [] => false
  | c :: rest => isSlugAlnum c && slugDFA true rest

/-- Models `Slug.validateSlugFormat`. -/
def Slug.validateSlugFormat (s : String) : Option Kernel.Error :=
  if !slugFormatMatch s then
    some (.base Kernel.EInvalid MSlugInvalidChars "Slug.validateSlugFormat")
  else none

/-- Models `Slug.Validate`: presence, maximum length, then format. -/
def Slug.Validate (s : String) : Option Kernel.Error :=
  match Kernel.ValidatePresence "slug" s "Slug.Validate" with
  | some e => some (.wrap "" "" "Slug.Validate" e)
  | none =>
    match Kernel.ValidateMaxLength "slug" s MaxSlugLength "Slug.Validate" with
    | some e => some (.wrap "" "" "Slug.Validate" e)
    | none =>
      match Slug.validateSlugFormat s with
      | some e => some (.wrap "" "" "Slug.Validate" e)
      | none => none

/-- Models `shared.NewSlug`: generate, then validate the result. -/
def NewSlug (input : String) : Except Kernel.Error String :=
  match generateSlug input with
  | .error e => .error (.wrap "" "" "NewSlug" e)
  | .ok slug =>
    match Slug.Validate slug with
    | some e => .error (.wrap "" "" "NewSlug" e)
    | none => .ok slug

/-- Models `Title.Validate`: presence and 10–100 rune length. -/
def Title.Validate (t : String) : Option Kernel.Error :=
  match Kernel.ValidatePresence "title" t "Title.Validate" with
  | some e => some e
  | none => Kernel.ValidateLength "title" t MinTitleLength MaxTitleLength "Title.Validate"

/-- Models `Description.Validate`: 0–300 rune length. -/
def Description.Validate (d : String) : Option Kernel.Error :=
  Kernel.ValidateLength "description" d MinDescriptionLength MaxDescriptionLength
    "Description.Validate"

end Shared

namespace User

/-- Models `type Role string` of internal/domain/user. -/
abbrev Role := String

def RoleAdmin : Role := "admin"

def RoleEditor : Role := "editor"

def RoleAuthor : Role := "author"

def RoleSubscriber : Role := "subscriber"

def RoleVisitor : Role := "visitor"

def RoleMachine : Role := "machine"

/-- An actor behind the `PostPermissionChecker` capability
(`HasRole`, `HasAnyRole`, `GetID`).  Both implementations in the repository
(`user.User` and the test double) answer `HasRole` by membership in a role
list and `HasAnyRole` by `slices.ContainsFunc`, so an actor is modelled by
its role list and identifier. -/
structure User where
  Roles : List Role
  ID : String
deriving Repr, DecidableEq

/-- Models `User.HasRole` (`slices.Contains`). -/
def User.HasRole (u : User) (r : Role) : Bool :=
  u.Roles.contains r

/-- Models `User.HasAnyRole` (`slices.ContainsFunc`). -/
def User.HasAnyRole (u : User) (rs : List Role) : Bool :=
  rs.any u.HasRole

end User

namespace Category

def MCategoryCircularReference : String := "Category cannot be its own parent."

def MCategoryNameMissing : String := "Missing category name."

def MinCategoryNameLength : Nat := 1

def MaxCategoryNameLength : Nat := 100

/-- Models `const MaxCategoryDepth = 3` (a Go `int`). -/
def MaxCategoryDepth : Int := 3

/-- Models `CategoryName.Validate`: presence and 1–100 rune length. -/
def CategoryName.Validate (n : String) : Option Kernel.Error :=
  match Kernel.ValidatePresence "category name" n "CategoryName.Validate" with
  | some e => some e
  | none =>
    Kernel.ValidateLength "category name" n MinCategoryNameLength MaxCategoryNameLength
      "CategoryName.Validate"

/-- Models the `category.Category` entity.  `ParentID` is nil (`none`) for
root categories. -/
structure Category where
  CategoryID : String
  Name : String
  Slug : String
  Description : String
  ParentID : Option String
  CreatedBy : String
  CreatedAt : Int
  Clock : Kernel.Clock
deriving Repr, DecidableEq

/-- The zero value `Category{}` returned alongside constructor errors. -/
def Category.zero : Category :=
  { CategoryID := "", Name := "", Slug := "", Description := "", ParentID := none,
    CreatedBy := "", CreatedAt := 0, Clock := ⟨0⟩ }

/-- First failing check in a fail-fast validator chain. -/
def firstErr (l : List (Option Kernel.Error)) : Option Kernel.Error :=
  l.findSome? id

/-- Models `Category.validateBasicHierarchy`: a present parent must be a
valid ID and must differ from the category's own ID. -/
def Category.validateBasicHierarchy (c : Category) : Option Kernel.Error :=
  match c.ParentID with
  | none => none
  | some pid =>
    match Kernel.ID.Validate "category.Category" pid with
    | some e => some (.wrap "" "" "Category.validateBasicHierarchy" e)
    | none =>
      if pid = c.CategoryID then
        some (.base Kernel.EInvalid MCategoryCircularReference "Category.validateBasicHierarchy")
      else none

/-- Models `Category.Validate`: ID, name, slug, description, creator, then
basic hierarchy, each failure wrapped with the operation. -/
def Category.Validate (c : Category) : Option Kernel.Error :=
  (firstErr
    [Kernel.ID.Validate "category.Category" c.CategoryID,
     CategoryName.Validate c.Name,
     Shared.Slug.Validate c.Slug,
     Shared.Description.Validate c.Description,
     Kernel.ID.Validate "user.User" c.CreatedBy,
     c.validateBasicHierarchy]).map (.wrap "" "" "Category.Validate" ·)

/-- Parameters of `NewCategory`. -/
structure NewCategoryParams where
  CategoryID : String
  Name : String
  CreatedBy : String
  Description : String
  ParentID : Option String
  Clock : Kernel.Clock

/-- Models `NewCategory`: derives the slug from the name, stamps the
creation time, validates, and returns either the category or the zero value
with an error. -/
def NewCategory (params : NewCategoryParams) : Category × Option Kernel.Error :=
  let now := params.Clock.now
  match Shared.NewSlug params.Name with
  | .error e => (Category.zero, some (.wrap "" "" "NewCategory" e))
  | .ok slug =>
    let category : Category :=
      { CategoryID := params.CategoryID, Name := params.Name, Slug := slug,
        Description := params.Description, ParentID := params.ParentID,
        CreatedBy := params.CreatedBy, CreatedAt := now, Clock := params.Clock }
    match category.Validate with
    | some e => (Category.zero, some (.wrap "" "" "NewCategory" e))
    | none => (category, none)

/-- Models `CategoryPath`, the root-to-leaf chain of categories. -/
abbrev CategoryPath := List Category

/-- Models `CategoryPath.String`: slash-joined slugs. -/
def CategoryPath.render (cp : CategoryPath) : String :=
  if cp = [] then ""
  else String.intercalate "/" (cp.map (fun c => c.Slug))

/-- Models `CategoryPath.Depth`: `len(cp) - 1` over Go `int`. -/
def CategoryPath.Depth (cp : CategoryPath) : Int :=
  (cp.length : Int) - 1

/-- Models `CategoryPath.IsValidDepth`: depth at most `MaxCategoryDepth-1`. -/
def CategoryPath.IsValidDepth (cp : CategoryPath) : Bool :=
  cp.Depth ≤ MaxCategoryDepth - 1

/-- Hex digit value, as in net/url's `unhex`. -/
def unhex (c : Char) : Option Nat :=
  if 0x30 ≤ c.toNat && c.toNat ≤ 0x39 then some (c.toNat - 0x30)
  else if 0x61 ≤ c.toNat && c.toNat ≤ 0x66 then some (c.toNat - 0x61 + 10)
  else if 0x41 ≤ c.toNat && c.toNat ≤ 0x46 then some (c.toNat - 0x41 + 10)
  else none

/-- Models `url.QueryUnescape`: `%XX` becomes the escaped octet (returned
here as the code point of that octet; recombination of multi-octet UTF-8
sequences is not modelled), `+` becomes a space, a `%` not followed by two
hex digits is an error (`none`). -/
def queryUnescapeList : List Char → Option (List Char)
  | [] => some []
  | '%' :: a :: b :: rest =>
    match unhex a, unhex b with
    | some x, some y => (queryUnescapeList rest).map (fun l => Char.ofNat (16 * x + y) :: l)
    | _, _ => none
  | ['%'] => none
  | ['%', _] => none
  | '+' :: rest => (queryUnescapeList rest).map (fun l => ' ' :: l)
  | c :: rest => (queryUnescapeList rest).map (fun l => c :: l)

/-- Models `url.QueryUnescape` on strings. -/
def queryUnescape (s : String) : Option String :=
  (queryUnescapeList s.data).map (fun l => ⟨l⟩)

/-- The segment list of a trimmed path: Go `strings.Split(urlPath, "/")`. -/
def splitSegments (s : String) : List String :=
  (Kernel.goSplitChar '/' s.data).map (fun l => (⟨l⟩ : String))

/-- Decodes each URL segment in order, failing on the first segment with
malformed encoding, as the loop in `PathService.ParseURL` does. -/
def decodeSegments : List String → Except String (List String)
  | [] => .ok []
  | seg :: rest =>
    match queryUnescape seg with
    | none => .error ("invalid URL segment: " ++ seg)
    | some d =>
      match decodeSegments rest with
      | .error e => .error e
      | .ok ds => .ok (d :: ds)

/-- Models `PathService.ParseURL`, parametric in the repository collaborator
`FindByPath` (whose result, of arbitrary type, is returned unchanged): trim
slashes, reject an empty path, split on `/`, percent-decode each segment,
delegate. -/
def PathService.ParseURL {α : Type} (findByPath : List String → α) (urlPath : String) :
    Except String α :=
  let trimmed := Kernel.goTrimChar urlPath '/'
  if trimmed = "" then .error "empty path not supported"
  else
    match decodeSegments (splitSegments trimmed) with
    | .error e => .error e
    | .ok segments => .ok (findByPath segments)

end Category

namespace Post

/-- Post publication status, modelling `type Status string`. -/
abbrev Status := String

def StatusDraft : Status := "draft"

def StatusPublished : Status := "published"

def StatusArchived : Status := "archived"

def StatusScheduled : Status := "scheduled"

def MStatusInvalid : String := "Invalid status."

/-- Models the `allowedTransitions` map: `none` models a missing key. -/
def allowedTransitions (s : Status) : Option (List Status) :=
  if s = StatusDraft then some [StatusPublished, StatusScheduled]
  else if s = StatusPublished then some [StatusDraft, StatusArchived]
  else if s = StatusScheduled then some [StatusDraft, StatusPublished]
  else if s = StatusArchived then some [StatusPublished]
  else none

/-- Models `Status.Validate`. -/
def Status.Validate (s : Status) : Option Kernel.Error :=
  if s = StatusDraft || s = StatusPublished || s = StatusArchived || s = StatusScheduled then
    none
  else some (.base Kernel.EInvalid MStatusInvalid "Status.Validate")

/-- Models `Status.CanTransitionTo`: same status is always allowed, else the
transition table decides. -/
def Status.CanTransitionTo (s target : Status) : Bool :=
  if s = target then true
  else
    match allowedTransitions s with
    | none => false
    | some allowed => allowed.contains target

def MinPostContentLength : Nat := 300

def MaxPostContentLength : Nat := 10000

def MSchemaTypeInvalid : String := "Invalid schema type."

def MPostCannotPublish : String := "User cannot publish this post."

def MPostCannotApprove : String := "User cannot approve this post."

def MPostCannotSchedule : String := "User cannot schedule this post."

def MPostScheduledDateRequired : String := "Scheduled date is required for scheduled posts."

def MPostScheduledDatePast : String := "Scheduled date must be in the future."

/-- Models `fmt.Sprintf(MPostInvalidStatusTransition, s, t)`. -/
def mPostInvalidStatusTransition (src tgt : Status) : String :=
  "Invalid status transition from " ++ src ++ " to " ++ tgt ++ "."

/-- Models `PostContent.Validate`: presence, then 300–10000 rune length. -/
def PostContent.Validate (p : String) : Option Kernel.Error :=
  match Kernel.ValidatePresence "post content" p "PostContent.Validate" with
  | some e => some e
  | none =>
    match Kernel.ValidateMinLength "post content" p MinPostContentLength
        "PostContent.Validate" with
    | some e => some e
    | none =>
      Kernel.ValidateMaxLength "post content" p MaxPostContentLength "PostContent.Validate"

/-- Models `SchemaType.Validate`: empty is allowed (default applies),
otherwise the value must be one of the five Schema.org types. -/
def SchemaType.Validate (s : String) : Option Kernel.Error :=
  if s = "" then none
  else if s = "Article" || s = "BlogPosting" || s = "EducationalContent" ||
      s = "LearningResource" || s = "HowTo" then none
  else some (.base Kernel.EInvalid MSchemaTypeInvalid "SchemaType.Validate")

/-- Parameters of `NewPost` (approval fields are never parameters: new
posts start unapproved). -/
structure NewPostParams where
  PostID : String
  Owner : String
  Title : String
  Content : String
  FeaturedImage : String
  Status : Status
  Category : Category.Category
  PublishedAt : Option Int
  SEOTitle : String
  SEODescription : String
  OpenGraphTitle : String
  OpenGraphDescription : String
  OpenGraphImage : String
  CanonicalURL : String
  SchemaType : String
  Clock : Kernel.Clock

/-- Models the `post.Post` entity (identity, content, SEO metadata,
publishing workflow fields and the injected clock). -/
structure Post where
  PostID : String
  Owner : String
  Title : String
  Content : String
  FeaturedImage : String
  Status : Status
  Slug : String
  SEOTitle : String
  SEODescription : String
  OpenGraphTitle : String
  OpenGraphDescription : String
  OpenGraphImage : String
  CanonicalURL : String
  SchemaType : String
  PublishedAt : Option Int
  ApprovedBy : Option String
  ApprovedAt : Option Int
  CreatedAt : Int
  UpdatedAt : Int
  Category : Category.Category
  Clock : Kernel.Clock
deriving Repr, DecidableEq

/-- The zero value `Post{}` returned alongside constructor errors. -/
def Post.zero : Post :=
  { PostID := "", Owner := "", Title := "", Content := "", FeaturedImage := "",
    Status := "", Slug := "", SEOTitle := "", SEODescription := "",
    OpenGraphTitle := "", OpenGraphDescription := "", OpenGraphImage := "",
    CanonicalURL := "", SchemaType := "", PublishedAt := none, ApprovedBy := none,
    ApprovedAt := none, CreatedAt := 0, UpdatedAt := 0,
    Category := Category.Category.zero, Clock := ⟨0⟩ }

/-- Models `Post.IsApproved`: both approval fields set. -/
def Post.IsApproved (p : Post) : Bool :=
  p.ApprovedBy.isSome && p.ApprovedAt.isSome

/-- Models `Post.validateWorkflowFields`: a present `ApprovedBy` must be a
valid ID, and a scheduled post needs a strictly future `PublishedAt`. -/
def Post.validateWorkflowFields (p : Post) : Option Kernel.Error :=
  match
    (match p.ApprovedBy with
     | some ab =>
       (Kernel.ID.Validate "user.User" ab).map (.wrap "" "" "Post.validateWorkflowFields" ·)
     | none => none)
  with
  | some e => some e
  | none =>
    if p.Status = StatusScheduled then
      match p.PublishedAt with
      | none =>
        some (.base Kernel.EInvalid MPostScheduledDateRequired "Post.validateWorkflowFields")
      | some t =>
        if ¬(t > p.Clock.now) then
          some (.base Kernel.EInvalid MPostScheduledDatePast "Post.validateWorkflowFields")
        else none
    else none

/-- Models `Post.Validate`: all field validators in source order (empty SEO
and OpenGraph titles are skipped), then the workflow fields, the first
failure wrapped with the operation. -/
def Post.Validate (p : Post) : Option Kernel.Error :=
  (Category.firstErr
    [Kernel.ID.Validate "post.Post" p.PostID,
     Kernel.ID.Validate "user.User" p.Owner,
     Shared.Title.Validate p.Title,
     PostContent.Validate p.Content,
     Kernel.URL.Validate p.FeaturedImage,
     if p.SEOTitle ≠ "" then Shared.Title.Validate p.SEOTitle else none,
     Shared.Description.Validate p.SEODescription,
     if p.OpenGraphTitle ≠ "" then Shared.Title.Validate p.OpenGraphTitle else none,
     Shared.Description.Validate p.OpenGraphDescription,
     Kernel.URL.Validate p.OpenGraphImage,
     Kernel.URL.Validate p.CanonicalURL,
     SchemaType.Validate p.SchemaType,
     Status.Validate p.Status,
     Shared.Slug.Validate p.Slug,
     p.Category.Validate,
     p.validateWorkflowFields]).map (.wrap "" "" "Post.Validate" ·)

/-- Models `Post.CanTransitionTo`: the status table first, then the
role/approval gates of the target-specific switch. -/
def Post.CanTransitionTo (p : Post) (newStatus : String) (u : User.User) :
    Option Kernel.Error :=
  if ¬(Status.CanTransitionTo p.Status newStatus) then
    some (.base Kernel.EInvalid (mPostInvalidStatusTransition p.Status newStatus)
      "Post.CanTransitionTo")
  else if newStatus = StatusPublished then
    if ¬p.IsApproved then
      some (.base Kernel.EInvalid MPostCannotPublish "Post.CanTransitionTo")
    else if ¬(u.HasAnyRole [User.RoleAdmin, User.RoleEditor]) then
      some (.base Kernel.EForbidden MPostCannotPublish "Post.CanTransitionTo")
    else none
  else if newStatus = StatusScheduled then
    if ¬(u.HasAnyRole [User.RoleAdmin, User.RoleEditor]) then
      some (.base Kernel.EForbidden MPostCannotSchedule "Post.CanTransitionTo")
    else none
  else if newStatus = StatusArchived then
    if ¬(u.HasAnyRole [User.RoleAdmin, User.RoleEditor]) then
      some (.base Kernel.EForbidden (mPostInvalidStatusTransition p.Status newStatus)
        "Post.CanTransitionTo")
    else none
  else if newStatus = StatusDraft then
    if p.Status = StatusPublished ∧ ¬(u.HasAnyRole [User.RoleAdmin, User.RoleEditor]) then
      some (.base Kernel.EForbidden (mPostInvalidStatusTransition p.Status newStatus)
        "Post.CanTransitionTo")
    else none
  else none

/-- Models `Post.Approve`: only an Admin or Editor may approve, owners may
not approve their own post unless Admin; success stamps the approval fields
and the update time. -/
def Post.Approve (p : Post) (approver : User.User) : Post × Option Kernel.Error :=
  if ¬(approver.HasAnyRole [User.RoleAdmin, User.RoleEditor]) then
    (p, some (.base Kernel.EForbidden MPostCannotApprove "Post.Approve"))
  else if p.Owner = approver.ID ∧ ¬(approver.HasRole User.RoleAdmin) then
    (p, some (.base Kernel.EForbidden MPostCannotApprove "Post.Approve"))
  else
    ({ p with
        ApprovedBy := some approver.ID, ApprovedAt := some p.Clock.now,
        UpdatedAt := p.Clock.now }, none)

/-- Models `Post.Schedule`: the full transition check first, then the
strictly-future date check, then the copy-on-write update. -/
def Post.Schedule (p : Post) (publishAt : Int) (u : User.User) : Post × Option Kernel.Error :=
  match p.CanTransitionTo StatusScheduled u with
  | some err => (p, some (.wrap "" "" "Post.Schedule" err))
  | none =>
    if ¬(publishAt > p.Clock.now) then
      (p, some (.base Kernel.EInvalid MPostScheduledDatePast "Post.Schedule"))
    else
      ({ p with
          Status := StatusScheduled, PublishedAt := some publishAt,
          UpdatedAt := p.Clock.now }, none)

/-- Models `Post.Publish`: the full transition check, then the
copy-on-write update stamping `PublishedAt` with the current time. -/
def Post.Publish (p : Post) (u : User.User) : Post × Option Kernel.Error :=
  match p.CanTransitionTo StatusPublished u with
  | some err => (p, some (.wrap "" "" "Post.Publish" err))
  | none =>
    ({ p with
        Status := StatusPublished, PublishedAt := some p.Clock.now,
        UpdatedAt := p.Clock.now }, none)

/-- Models `NewPost`: derive the slug from the title, build the post with
unapproved workflow state and creation timestamps, validate, and return
either the post or the zero value with an error. -/
def NewPost (params : NewPostParams) : Post × Option Kernel.Error :=
  let now := params.Clock.now
  match Shared.NewSlug params.Title with
  | .error e => (Post.zero, some (.wrap "" "" "NewPost" e))
  | .ok slug =>
    let post : Post :=
      { PostID := params.PostID, Owner := params.Owner, Title := params.Title,
        Content := params.Content, FeaturedImage := params.FeaturedImage,
        Status := params.Status, Slug := slug, SEOTitle := params.SEOTitle,
        SEODescription := params.SEODescription, OpenGraphTitle := params.OpenGraphTitle,
        OpenGraphDescription := params.OpenGraphDescription,
        OpenGraphImage := params.OpenGraphImage, CanonicalURL := params.CanonicalURL,
        SchemaType := params.SchemaType, PublishedAt := params.PublishedAt,
        ApprovedBy := none, ApprovedAt := none, CreatedAt := now, UpdatedAt := now,
        Category := params.Category, Clock := params.Clock }
    match post.Validate with
    | some e => (Post.zero, some (.wrap "" "" "NewPost" e))
    | none => (post, none)

end Post

/-- The four defined workflow statuses. -/
def validStatuses : List Post.Status :=
  [Post.StatusDraft, Post.StatusPublished, Post.StatusArchived, Post.StatusScheduled]

/-- The directed transitions the spec's table allows between distinct states. -/
def allowedStatusPairs : List (Post.Status × Post.Status) :=
  [(Post.StatusDraft, Post.StatusPublished), (Post.StatusDraft, Post.StatusScheduled),
   (Post.StatusPublished, Post.StatusDraft), (Post.StatusPublished, Post.StatusArchived),
   (Post.StatusScheduled, Post.StatusDraft), (Post.StatusScheduled, Post.StatusPublished),
   (Post.StatusArchived, Post.StatusPublished)]

/-- No two adjacent hyphens anywhere in the list. -/
def noDoubleHyphen : List Char → Bool
  | [] => true
  | [_] => true
  | a :: b :: rest => !(a = '-' && b = '-') && noDoubleHyphen (b :: rest)

/-- The well-formedness a finished slug's rune list must satisfy: nonempty,
only `[a-z0-9-]`, no hyphen at either end, no run of hyphens. -/
def slugOutputOK (l : List Char) : Prop :=
  l ≠ [] ∧ (∀ c ∈ l, Shared.isSlugChar c = true) ∧ noDoubleHyphen l = true ∧
  l.head? ≠ some '-' ∧ l.getLast? ≠ some '-'

/-- A valid category fixture for concrete evaluations. -/
def sampleCategory : Category.Category :=
  { CategoryID := "c1", Name := "A1", Slug := "a1", Description := "", ParentID := none,
    CreatedBy := "u1", CreatedAt := 100, Clock := ⟨100⟩ }

/-- A valid unapproved draft post fixture, whose clock reads 100. -/
def samplePost : Post.Post :=
  { PostID := "p1", Owner := "owner1", Title := "Test Post Title Example",
    Content := String.mk (List.replicate 300 'a'), FeaturedImage := "",
    Status := Post.StatusDraft, Slug := "test-post-title-example", SEOTitle := "",
    SEODescription := "", OpenGraphTitle := "", OpenGraphDescription := "",
    OpenGraphImage := "", CanonicalURL := "", SchemaType := "",
    PublishedAt := none, ApprovedBy := none, ApprovedAt := none,
    CreatedAt := 100, UpdatedAt := 100, Category := sampleCategory, Clock := ⟨100⟩ }

/-- The sample post with approval stamped by a third user. -/
def samplePostApproved : Post.Post :=
  { samplePost with ApprovedBy := some "approver1", ApprovedAt := some 99 }

def sampleAdmin : User.User := { Roles := [User.RoleAdmin], ID := "admin1" }

def sampleEditor : User.User := { Roles := [User.RoleEditor], ID := "editor1" }

def sampleNobody : User.User := { Roles := [], ID := "nobody1" }

/-- Parameters that make `NewPost` fail: the empty title cannot produce a
slug. -/
def badPostParams : Post.NewPostParams :=
  { PostID := "p1", Owner := "o1", Title := "", Content := "", FeaturedImage := "",
    Status := Post.StatusDraft, Category := sampleCategory, PublishedAt := none,
    SEOTitle := "", SEODescription := "", OpenGraphTitle := "", OpenGraphDescription := "",
    OpenGraphImage := "", CanonicalURL := "", SchemaType := "", Clock := ⟨100⟩ }

/-- Parameters that make `NewCategory` succeed. -/
def goodCategoryParams : Category.NewCategoryParams :=
  { CategoryID := "c1", Name := "A1", CreatedBy := "u1", Description := "",
    ParentID := none, Clock := ⟨100⟩ }

/-- C1: `Status.CanTransitionTo` is exactly the spec's transition table: for
every pair of defined statuses it returns true precisely when the two are
equal or the ordered pair is one of the seven listed transitions. -/
theorem c1_status_transition_table (s t : Post.Status)
    (hs : s ∈ validStatuses) (ht : t ∈ validStatuses) :
    Post.Status.CanTransitionTo s t =
      (s = t || allowedStatusPairs.contains (s, t)) := by
  fin_cases hs <;> fin_cases ht <;> decide

/-- C1 witness: archived → draft is rejected while draft → published is
allowed, at concrete inputs. -/
theorem c1_status_transition_table_witness :
    Post.Status.CanTransitionTo Post.StatusArchived Post.StatusDraft = false ∧
    Post.Status.CanTransitionTo Post.StatusDraft Post.StatusPublished = true := by
  constructor
  · have h := c1_status_transition_table Post.StatusArchived Post.StatusDraft
      (by decide) (by decide)
    rw [h]; decide
  · have h := c1_status_transition_table Post.StatusDraft Post.StatusPublished
      (by decide) (by decide)
    rw [h]; decide

/-- C7: for every CategoryPath of length n (including n = 0), Depth is
n - 1 and IsValidDepth holds exactly when n ≤ 3. -/
theorem c7_categoryPath_depth (cp : Category.CategoryPath) :
    cp.Depth = (cp.length : Int) - 1 ∧ (cp.IsValidDepth = true ↔ cp.length ≤ 3) := by
  refine ⟨rfl, ?_⟩
  simp only [Category.CategoryPath.IsValidDepth, Category.CategoryPath.Depth,
    Category.MaxCategoryDepth, decide_eq_true_eq]
  omega

/-- C2: when the status table allows moving to published, an unapproved
post cannot be published (code invalid, whatever the actor's roles), an
approved post needs an Admin or Editor (else forbidden), and an approved
post published by an Admin or Editor gets status published and
PublishedAt stamped with the current clock time. -/
theorem c2_publish_approval_then_role (p : Post.Post) (u : User.User)
    (htable : Post.Status.CanTransitionTo p.Status Post.StatusPublished = true) :
    ((p.ApprovedBy = none ∨ p.ApprovedAt = none) →
      Kernel.ErrorCode (p.CanTransitionTo Post.StatusPublished u) = Kernel.EInvalid ∧
      Kernel.ErrorCode (p.Publish u).2 = Kernel.EInvalid) ∧
    (p.IsApproved = true → u.HasAnyRole [User.RoleAdmin, User.RoleEditor] = false →
      Kernel.ErrorCode (p.CanTransitionTo Post.StatusPublished u) = Kernel.EForbidden ∧
      Kernel.ErrorCode (p.Publish u).2 = Kernel.EForbidden) ∧
    (p.IsApproved = true → u.HasAnyRole [User.RoleAdmin, User.RoleEditor] = true →
      (p.Publish u).2 = none ∧ (p.Publish u).1.Status = Post.StatusPublished ∧
      (p.Publish u).1.PublishedAt = some p.Clock.now) := by
  refine ⟨?_, ?_, ?_⟩
  · intro hnap
    have hib : p.IsApproved = false := by
      rcases hnap with h | h <;> simp [Post.Post.IsApproved, h]
    have hct : p.CanTransitionTo Post.StatusPublished u =
        some (.base Kernel.EInvalid Post.MPostCannotPublish "Post.CanTransitionTo") := by
      simp [Post.Post.CanTransitionTo, htable, hib]
    simp [hct, Post.Post.Publish, Kernel.ErrorCode, Kernel.Error.codeOf, Kernel.EInvalid]
  · intro hap hrole
    have hct : p.CanTransitionTo Post.StatusPublished u =
        some (.base Kernel.EForbidden Post.MPostCannotPublish "Post.CanTransitionTo") := by
      simp [Post.Post.CanTransitionTo, htable, hap, hrole]
    simp [hct, Post.Post.Publish, Kernel.ErrorCode, Kernel.Error.codeOf, Kernel.EForbidden]
  · intro hap hrole
    have hct : p.CanTransitionTo Post.StatusPublished u = none := by
      simp [Post.Post.CanTransitionTo, htable, hap, hrole]
    simp [Post.Post.Publish, hct]

/-- C2 witness: at the concrete fixtures, the unapproved draft cannot be
published by an admin (invalid), and the approved draft published by an
editor succeeds with PublishedAt = 100. -/
theorem c2_publish_approval_then_role_witness :
    Kernel.ErrorCode (samplePost.Publish sampleAdmin).2 = Kernel.EInvalid ∧
    (samplePostApproved.Publish sampleEditor).2 = none ∧
    (samplePostApproved.Publish sampleEditor).1.Status = Post.StatusPublished ∧
    (samplePostApproved.Publish sampleEditor).1.PublishedAt = some 100 := by
  refine ⟨?_, ?_, ?_, ?_⟩
  · exact ((c2_publish_approval_then_role samplePost sampleAdmin (by decide)).1
      (Or.inl rfl)).2
  · exact ((c2_publish_approval_then_role samplePostApproved sampleEditor
      (by decide)).2.2 (by decide) (by decide)).1
  · exact ((c2_publish_approval_then_role samplePostApproved sampleEditor
      (by decide)).2.2 (by decide) (by decide)).2.1
  · exact ((c2_publish_approval_then_role samplePostApproved sampleEditor
      (by decide)).2.2 (by decide) (by decide)).2.2

/-- C4: Approve is forbidden without Admin or Editor, forbidden for the
owner without Admin (an Editor cannot approve their own post, an Admin
can), and success stamps ApprovedBy with the approver's ID and ApprovedAt
with the current clock time, leaving Status unchanged. -/
theorem c4_approve_gate (p : Post.Post) (u : User.User) :
    (u.HasAnyRole [User.RoleAdmin, User.RoleEditor] = false →
      Kernel.ErrorCode (p.Approve u).2 = Kernel.EForbidden) ∧
    (p.Owner = u.ID → u.HasRole User.RoleAdmin = false →
      Kernel.ErrorCode (p.Approve u).2 = Kernel.EForbidden) ∧
    (u.HasAnyRole [User.RoleAdmin, User.RoleEditor] = true →
      (p.Owner ≠ u.ID ∨ u.HasRole User.RoleAdmin = true) → (p.Approve u).2 = none) ∧
    ((p.Approve u).2 = none →
      (p.Approve u).1.ApprovedBy = some u.ID ∧
      (p.Approve u).1.ApprovedAt = some p.Clock.now ∧
      (p.Approve u).1.Status = p.Status) := by
  refine ⟨?_, ?_, ?_, ?_⟩
  · intro hrole
    simp [Post.Post.Approve, hrole, Kernel.ErrorCode, Kernel.Error.codeOf, Kernel.EForbidden]
  · intro hown hadm
    by_cases hrole : u.HasAnyRole [User.RoleAdmin, User.RoleEditor] = true
    · simp [Post.Post.Approve, hrole, hown, hadm, Kernel.ErrorCode, Kernel.Error.codeOf,
        Kernel.EForbidden]
    · simp only [Bool.not_eq_true] at hrole
      simp [Post.Post.Approve, hrole, Kernel.ErrorCode, Kernel.Error.codeOf, Kernel.EForbidden]
  · intro hrole hok
    rcases hok with hne | hadm
    · simp [Post.Post.Approve, hrole, hne]
    · simp [Post.Post.Approve, hrole, hadm]
  · intro hok
    by_cases hrole : u.HasAnyRole [User.RoleAdmin, User.RoleEditor] = true
    · by_cases hown : p.Owner = u.ID ∧ u.HasRole User.RoleAdmin = false
      · simp [Post.Post.Approve, hrole, hown] at hok
      · simp [Post.Post.Approve, hrole, hown]
    · simp only [Bool.not_eq_true] at hrole
      simp [Post.Post.Approve, hrole] at hok

/-- C4 witness: at the concrete fixtures, a role-less user is rejected and
an editor's approval of another user's draft stamps both approval fields
without changing the status. -/
theorem c4_approve_gate_witness :
    Kernel.ErrorCode (samplePost.Approve sampleNobody).2 = Kernel.EForbidden ∧
    (samplePost.Approve sampleEditor).1.ApprovedBy = some "editor1" ∧
    (samplePost.Approve sampleEditor).1.ApprovedAt = some 100 ∧
    (samplePost.Approve sampleEditor).1.Status = Post.StatusDraft := by
  refine ⟨?_, ?_, ?_, ?_⟩
  · exact (c4_approve_gate samplePost sampleNobody).1 (by decide)
  · exact ((c4_approve_gate samplePost sampleEditor).2.2.2
      ((c4_approve_gate samplePost sampleEditor).2.2.1 (by decide)
        (Or.inl (by decide)))).1
  · exact ((c4_approve_gate samplePost sampleEditor).2.2.2
      ((c4_approve_gate samplePost sampleEditor).2.2.1 (by decide)
        (Or.inl (by decide)))).2.1
  · exact ((c4_approve_gate samplePost sampleEditor).2.2.2
      ((c4_approve_gate samplePost sampleEditor).2.2.1 (by decide)
        (Or.inl (by decide)))).2.2

/-- C10: scheduling never consults the approval fields: an unapproved
draft (or already scheduled) post scheduled at a strictly future time by
an Admin or Editor succeeds. -/
theorem c10_schedule_ignores_approval (p : Post.Post) (u : User.User) (t : Int)
    (hab : p.ApprovedBy = none) (haa : p.ApprovedAt = none)
    (hst : p.Status = Post.StatusDraft ∨ p.Status = Post.StatusScheduled)
    (hfut : t > p.Clock.now)
    (hrole : u.HasAnyRole [User.RoleAdmin, User.RoleEditor] = true) :
    (p.Schedule t u).2 = none ∧ (p.Schedule t u).1.Status = Post.StatusScheduled ∧
    (p.Schedule t u).1.PublishedAt = some t := by
  have htable : Post.Status.CanTransitionTo p.Status Post.StatusScheduled = true := by
    rcases hst with h | h <;> rw [h] <;> decide
  have hct : p.CanTransitionTo Post.StatusScheduled u = none := by
    simp +decide [Post.Post.CanTransitionTo, htable, hrole]
  simp [Post.Post.Schedule, hct, hfut]

/-- C10 witness: the unapproved sample draft scheduled at 200 (clock 100)
by the sample admin succeeds. -/
theorem c10_schedule_ignores_approval_witness :
    (samplePost.Schedule 200 sampleAdmin).2 = none ∧
    (samplePost.Schedule 200 sampleAdmin).1.Status = Post.StatusScheduled ∧
    (samplePost.Schedule 200 sampleAdmin).1.PublishedAt = some 200 :=
  c10_schedule_ignores_approval samplePost sampleAdmin 200 rfl rfl
    (Or.inl rfl) (by decide) (by decide)

/-- C3 counterexample: the claim says a non-future timestamp always makes
Schedule fail with code invalid, but the transition/role check runs first:
the role-less user scheduling the sample draft at time 50 (clock 100, so
not strictly future) gets code forbidden, not invalid. -/
theorem c3_schedule_guard_counterexample :
    ¬((50 : Int) > samplePost.Clock.now) ∧
    Kernel.ErrorCode (samplePost.Schedule 50 sampleNobody).2 = Kernel.EForbidden ∧
    Kernel.ErrorCode (samplePost.Schedule 50 sampleNobody).2 ≠ Kernel.EInvalid := by
  refine ⟨by decide, by decide, by decide⟩

/-- C3 (amended): a non-future timestamp always makes Schedule fail, with
code invalid whenever the table allows the scheduled transition and the
actor holds Admin or Editor; a strictly future timestamp with table and
role satisfied succeeds with status scheduled and PublishedAt equal to the
supplied time; and when the table allows the transition but the actor
lacks both roles the code is forbidden, whatever the timestamp. -/
theorem c3_schedule_guard (p : Post.Post) (u : User.User) (t : Int) :
    (¬(t > p.Clock.now) →
      (p.Schedule t u).2.isSome = true ∧
      (Post.Status.CanTransitionTo p.Status Post.StatusScheduled = true →
        u.HasAnyRole [User.RoleAdmin, User.RoleEditor] = true →
        Kernel.ErrorCode (p.Schedule t u).2 = Kernel.EInvalid)) ∧
    (Post.Status.CanTransitionTo p.Status Post.StatusScheduled = true →
      u.HasAnyRole [User.RoleAdmin, User.RoleEditor] = true → t > p.Clock.now →
      (p.Schedule t u).2 = none ∧ (p.Schedule t u).1.Status = Post.StatusScheduled ∧
      (p.Schedule t u).1.PublishedAt = some t) ∧
    (Post.Status.CanTransitionTo p.Status Post.StatusScheduled = true →
      u.HasAnyRole [User.RoleAdmin, User.RoleEditor] = false →
      Kernel.ErrorCode (p.Schedule t u).2 = Kernel.EForbidden) := by
  refine ⟨?_, ?_, ?_⟩
  · intro hpast
    constructor
    · rcases hc : p.CanTransitionTo Post.StatusScheduled u with _ | e
      · simp [Post.Post.Schedule, hc, hpast]
      · simp [Post.Post.Schedule, hc]
    · intro htable hrole
      have hct : p.CanTransitionTo Post.StatusScheduled u = none := by
        simp +decide [Post.Post.CanTransitionTo, htable, hrole]
      simp [Post.Post.Schedule, hct, hpast, Kernel.ErrorCode, Kernel.Error.codeOf,
        Kernel.EInvalid]
  · intro htable hrole hfut
    have hct : p.CanTransitionTo Post.StatusScheduled u = none := by
      simp +decide [Post.Post.CanTransitionTo, htable, hrole]
    simp [Post.Post.Schedule, hct, hfut]
  · intro htable hrole
    have hct : p.CanTransitionTo Post.StatusScheduled u =
        some (.base Kernel.EForbidden Post.MPostCannotSchedule "Post.CanTransitionTo") := by
      simp +decide [Post.Post.CanTransitionTo, htable, hrole]
    simp [Post.Post.Schedule, hct, Kernel.ErrorCode, Kernel.Error.codeOf, Kernel.EForbidden]

/-- C3 witness: scheduling the sample draft at the present instant by the
admin fails invalid, at 200 it succeeds, and the role-less user is
forbidden. -/
theorem c3_schedule_guard_witness :
    Kernel.ErrorCode (samplePost.Schedule 100 sampleAdmin).2 = Kernel.EInvalid ∧
    (samplePost.Schedule 200 sampleAdmin).2 = none ∧
    (samplePost.Schedule 200 sampleAdmin).1.PublishedAt = some 200 ∧
    Kernel.ErrorCode (samplePost.Schedule 200 sampleNobody).2 = Kernel.EForbidden := by
  refine ⟨?_, ?_, ?_, ?_⟩
  · exact ((c3_schedule_guard samplePost sampleAdmin 100).1 (by decide)).2
      (by decide) (by decide)
  · exact ((c3_schedule_guard samplePost sampleAdmin 200).2.1 (by decide) (by decide)
      (by decide)).1
  · exact ((c3_schedule_guard samplePost sampleAdmin 200).2.1 (by decide) (by decide)
      (by decide)).2.2
  · exact (c3_schedule_guard samplePost sampleNobody 200).2.2 (by decide) (by decide)

/-- Shape analysis of `NewPost`: it returns either the zero post with an
error or a post that passed `Validate`. -/
theorem NewPost_cases (pp : Post.NewPostParams) :
    (∃ e, Post.NewPost pp = (Post.Post.zero, some e)) ∨
    ((Post.NewPost pp).2 = none ∧ Post.Post.Validate (Post.NewPost pp).1 = none) := by
  unfold Post.NewPost
  split
  · exact Or.inl ⟨_, rfl⟩
  · dsimp only
    split
    · exact Or.inl ⟨_, rfl⟩
    · rename_i hv
      exact Or.inr ⟨rfl, hv⟩

/-- Shape analysis of `NewCategory`: it returns either the zero category
with an error or a category that passed `Validate`. -/
theorem NewCategory_cases (cp : Category.NewCategoryParams) :
    (∃ e, Category.NewCategory cp = (Category.Category.zero, some e)) ∨
    ((Category.NewCategory cp).2 = none ∧
      Category.Category.Validate (Category.NewCategory cp).1 = none) := by
  unfold Category.NewCategory
  split
  · exact Or.inl ⟨_, rfl⟩
  · dsimp only
    split
    · exact Or.inl ⟨_, rfl⟩
    · rename_i hv
      exact Or.inr ⟨rfl, hv⟩

/-- C9: the constructors are atomic: any error from NewPost or NewCategory
comes with the zero value of the entity, and a successfully returned
entity passes its own Validate. -/
theorem c9_constructors_atomic (pp : Post.NewPostParams) (cp : Category.NewCategoryParams) :
    ((Post.NewPost pp).2.isSome = true → (Post.NewPost pp).1 = Post.Post.zero) ∧
    ((Post.NewPost pp).2 = none → Post.Post.Validate (Post.NewPost pp).1 = none) ∧
    ((Category.NewCategory cp).2.isSome = true →
      (Category.NewCategory cp).1 = Category.Category.zero) ∧
    ((Category.NewCategory cp).2 = none →
      Category.Category.Validate (Category.NewCategory cp).1 = none) := by
  have hp := NewPost_cases pp
  have hc := NewCategory_cases cp
  refine ⟨?_, ?_, ?_, ?_⟩
  · intro h
    rcases hp with ⟨e, he⟩ | ⟨h2, _⟩
    · rw [he]
    · rw [h2] at h; simp at h
  · intro h
    rcases hp with ⟨e, he⟩ | ⟨_, hv⟩
    · rw [he] at h; simp at h
    · exact hv
  · intro h
    rcases hc with ⟨e, he⟩ | ⟨h2, _⟩
    · rw [he]
    · rw [h2] at h; simp at h
  · intro h
    rcases hc with ⟨e, he⟩ | ⟨_, hv⟩
    · rw [he] at h; simp at h
    · exact hv

/-- C9 witness: the failing post constructor returns the zero post, and the
successfully constructed category passes its own Validate. -/
theorem c9_constructors_atomic_witness :
    (Post.NewPost badPostParams).1 = Post.Post.zero ∧
    Category.Category.Validate (Category.NewCategory goodCategoryParams).1 = none := by
  constructor
  · exact (c9_constructors_atomic badPostParams goodCategoryParams).1 (by decide)
  · exact (c9_constructors_atomic badPostParams goodCategoryParams).2.2.2 (by decide)

/-- When every segment decodes, `decodeSegments` returns exactly the
decoded list. -/
theorem decodeSegments_ok (l segs : List String)
    (h : l.map Category.queryUnescape = segs.map some) :
    Category.decodeSegments l = .ok segs := by
  induction l generalizing segs with
  | nil =>
    simp only [List.map_nil] at h
    have : segs = [] := by
      cases segs with
      | nil => rfl
      | cons b bs => simp at h
    subst this; rfl
  | cons a t ih =>
    cases segs with
    | nil => simp at h
    | cons b bs =>
      simp only [List.map_cons, List.cons.injEq] at h
      obtain ⟨h1, h2⟩ := h
      simp [Category.decodeSegments, h1, ih bs h2]

/-- A segment with malformed encoding makes `decodeSegments` fail. -/
theorem decodeSegments_err (l : List String)
    (h : ∃ seg ∈ l, Category.queryUnescape seg = none) :
    ∃ e, Category.decodeSegments l = .error e := by
  induction l with
  | nil => simp at h
  | cons a t ih =>
    rcases ha : Category.queryUnescape a with _ | d
    · exact ⟨"invalid URL segment: " ++ a, by simp [Category.decodeSegments, ha]⟩
    · obtain ⟨seg, hmem, hseg⟩ := h
      rcases List.mem_cons.mp hmem with rfl | hmem'
      · rw [ha] at hseg; simp at hseg
      · obtain ⟨e, he⟩ := ih ⟨seg, hmem', hseg⟩
        exact ⟨e, by simp [Category.decodeSegments, ha, he]⟩

/-- C8: ParseURL trims leading and trailing slashes, errors on an empty
trimmed path, splits on slashes, percent-decodes every segment (failing on
malformed encoding), and otherwise hands exactly the decoded segment list
to the collaborator, returning its result unchanged. -/
theorem c8_parseURL_delegates {α : Type} (f : List String → α) (path : String) :
    (Kernel.goTrimChar path '/' = "" →
      Category.PathService.ParseURL f path = .error "empty path not supported") ∧
    (∀ segs, Kernel.goTrimChar path '/' ≠ "" →
      (Category.splitSegments (Kernel.goTrimChar path '/')).map Category.queryUnescape =
        segs.map some →
      Category.PathService.ParseURL f path = .ok (f segs)) ∧
    (Kernel.goTrimChar path '/' ≠ "" →
      (∃ seg ∈ Category.splitSegments (Kernel.goTrimChar path '/'),
        Category.queryUnescape seg = none) →
      ∃ e, Category.PathService.ParseURL f path = .error e) := by
  refine ⟨?_, ?_, ?_⟩
  · intro h
    simp [Category.PathService.ParseURL, h]
  · intro segs hne hm
    have hd := decodeSegments_ok _ segs hm
    simp [Category.PathService.ParseURL, hne, hd]
  · intro hne hm
    obtain ⟨e, he⟩ := decodeSegments_err _ hm
    exact ⟨e, by simp [Category.PathService.ParseURL, hne, he]⟩

/-- C8 witness: a concrete path is trimmed, split, percent-decoded and
delegated unchanged, and the all-slash path is rejected. -/
theorem c8_parseURL_delegates_witness :
    Category.PathService.ParseURL (fun segs => segs) "/a%20b/c/" = .ok ["a b", "c"] ∧
    Category.PathService.ParseURL (fun segs => segs) "///" =
      .error "empty path not supported" := by
  constructor
  · exact (c8_parseURL_delegates (fun segs => segs) "/a%20b/c/").2.1 ["a b", "c"]
      (by decide) (by decide)
  · exact (c8_parseURL_delegates (fun segs => segs) "///").1 (by decide)

/-- A slug rune is alphanumeric or the hyphen. -/
theorem slugChar_cases (c : Char) (h : Shared.isSlugChar c = true) :
    Shared.isSlugAlnum c = true ∨ c = '-' := by
  simp only [Shared.isSlugChar, Bool.or_eq_true, decide_eq_true_eq] at h
  exact h

/-- An alphanumeric slug rune is not the hyphen. -/
theorem slugAlnum_ne_hyphen (c : Char) (h : Shared.isSlugAlnum c = true) : c ≠ '-' := by
  intro rfl_h
  subst rfl_h
  simp [Shared.isSlugAlnum] at h

/-- A slug rune other than the hyphen is alphanumeric. -/
theorem slugChar_alnum_of_ne (c : Char) (h : Shared.isSlugChar c = true) (hne : c ≠ '-') :
    Shared.isSlugAlnum c = true := by
  rcases slugChar_cases c h with ha | rfl
  · exact ha
  · exact absurd rfl hne

/-- Slug runes are never Go whitespace. -/
theorem slugChar_not_space (c : Char) (h : Shared.isSlugChar c = true) :
    Kernel.goIsSpace c = false := by
  rcases slugChar_cases c h with ha | rfl
  · simp only [Shared.isSlugAlnum, Bool.or_eq_true, Bool.and_eq_true,
      decide_eq_true_eq] at ha
    rw [Bool.eq_false_iff]
    intro hs
    simp only [Kernel.goIsSpace, Bool.or_eq_true, Bool.and_eq_true,
      decide_eq_true_eq] at hs
    omega
  · decide

/-- Lookup misses every table whose keys all fail a predicate the lookup
key satisfies. -/
theorem lookup_none_of_no_key {β : Type} (tbl : List (Char × β)) (P : Char → Bool)
    (hall : tbl.all (fun p => !P p.1) = true) (c : Char) (hc : P c = true) :
    tbl.lookup c = none := by
  induction tbl with
  | nil => rfl
  | cons p t ih =>
    simp only [List.all_cons, Bool.and_eq_true, Bool.not_eq_true'] at hall
    obtain ⟨hp, ht⟩ := hall
    have hne : (c == p.1) = false := by
      rw [beq_eq_false_iff_ne]
      intro he
      rw [← he] at hp
      rw [hc] at hp
      cases hp
    obtain ⟨k, v⟩ := p
    simp only [List.lookup]
    rw [hne]
    exact ih (by simpa using ht)

/-- The transliteration table has no slug-rune key. -/
theorem translit_lookup_none (c : Char) (h : Shared.isSlugChar c = true) :
    Shared.transliterationMap.lookup c = none :=
  lookup_none_of_no_key _ Shared.isSlugChar (by decide) c h

/-- The accent-base table has no slug-rune key. -/
theorem accent_lookup_none (c : Char) (h : Shared.isSlugChar c = true) :
    Shared.accentBaseMap.lookup c = none :=
  lookup_none_of_no_key _ Shared.isSlugChar (by decide) c h

/-- Lowercasing fixes slug runes. -/
theorem goToLowerChar_fixed (c : Char) (h : Shared.isSlugChar c = true) :
    Shared.goToLowerChar c = c := by
  have hn : 97 ≤ c.toNat ∧ c.toNat ≤ 122 ∨ 48 ≤ c.toNat ∧ c.toNat ≤ 57 ∨ c.toNat = 45 := by
    rcases slugChar_cases c h with ha | rfl
    · simp only [Shared.isSlugAlnum, Bool.or_eq_true, Bool.and_eq_true,
        decide_eq_true_eq] at ha
      tauto
    · right; right; rfl
  unfold Shared.goToLowerChar
  split
  · rename_i hcond
    simp only [Bool.and_eq_true, decide_eq_true_eq] at hcond
    exfalso; omega
  · split
    · rename_i hcond
      simp only [Bool.and_eq_true, decide_eq_true_eq] at hcond
      exfalso; omega
    · rfl

/-- Accent stripping fixes slug runes. -/
theorem stripMarkChar_fixed (c : Char) (h : Shared.isSlugChar c = true) :
    Shared.stripMarkChar c = [c] := by
  have hn : 97 ≤ c.toNat ∧ c.toNat ≤ 122 ∨ 48 ≤ c.toNat ∧ c.toNat ≤ 57 ∨ c.toNat = 45 := by
    rcases slugChar_cases c h with ha | rfl
    · simp only [Shared.isSlugAlnum, Bool.or_eq_true, Bool.and_eq_true,
        decide_eq_true_eq] at ha
      tauto
    · right; right; rfl
  unfold Shared.stripMarkChar
  split
  · rename_i b hb
    rw [accent_lookup_none c h] at hb
    cases hb
  · exact if_neg (by simp only [Bool.and_eq_true, decide_eq_true_eq]; omega)

/-- Flattening a map that sends every element to its singleton is the
identity. -/
theorem flatten_map_singleton (f : Char → List Char) (l : List Char)
    (h : ∀ c ∈ l, f c = [c]) : (l.map f).flatten = l := by
  induction l with
  | nil => rfl
  | cons a t ih =>
    simp only [List.map_cons, List.flatten_cons, h a (by simp)]
    rw [ih (fun c hc => h c (by simp [hc]))]
    rfl

/-- Mapping a function that fixes every element is the identity. -/
theorem map_eq_self_of_fixed (f : Char → Char) (l : List Char)
    (h : ∀ c ∈ l, f c = c) : l.map f = l := by
  induction l with
  | nil => rfl
  | cons a t ih =>
    simp only [List.map_cons, h a (by simp)]
    rw [ih (fun c hc => h c (by simp [hc]))]

/-- The tail of a hyphen-run-free list is hyphen-run-free. -/
theorem ndh_tail (a : Char) (l : List Char) (h : noDoubleHyphen (a :: l) = true) :
    noDoubleHyphen l = true := by
  cases l with
  | nil => rfl
  | cons b t =>
    simp only [noDoubleHyphen, Bool.and_eq_true] at h
    exact h.2

/-- The first two elements of a hyphen-run-free list are not both hyphens. -/
theorem ndh_head_pair (a b : Char) (l : List Char)
    (h : noDoubleHyphen (a :: b :: l) = true) : ¬(a = '-' ∧ b = '-') := by
  intro hab
  obtain ⟨ha, hb⟩ := hab
  subst ha; subst hb
  simp [noDoubleHyphen] at h

/-- Extending a hyphen-run-free list by a head whose neighbour is safe. -/
theorem ndh_cons_of (a : Char) (l : List Char)
    (hhead : ∀ b, l.head? = some b → ¬(a = '-' ∧ b = '-'))
    (hl : noDoubleHyphen l = true) : noDoubleHyphen (a :: l) = true := by
  cases l with
  | nil => rfl
  | cons b t =>
    simp only [noDoubleHyphen, Bool.and_eq_true]
    refine ⟨?_, hl⟩
    have := hhead b rfl
    simp only [Bool.not_eq_true', Bool.and_eq_false_iff, decide_eq_false_iff_not]
    by_cases hb : b = '-'
    · exact Or.inl (fun ha => this ⟨ha, hb⟩)
    · exact Or.inr hb

/-- A right context can be dropped from a hyphen-run-free list. -/
theorem ndh_append_left (l t : List Char) (h : noDoubleHyphen (l ++ t) = true) :
    noDoubleHyphen l = true := by
  induction l with
  | nil => rfl
  | cons a l' ih =>
    cases l' with
    | nil => rfl
    | cons b l'' =>
      simp only [List.cons_append, noDoubleHyphen, Bool.and_eq_true] at h ⊢
      exact ⟨h.1, ih (by simpa using h.2)⟩

/-- A left context can be dropped from a hyphen-run-free list. -/
theorem ndh_append_right (t l : List Char) (h : noDoubleHyphen (t ++ l) = true) :
    noDoubleHyphen l = true := by
  induction t with
  | nil => exact h
  | cons a t' ih => exact ih (ndh_tail a _ (by simpa using h))

/-- Every rune the run-collapsing scan emits is a slug rune. -/
theorem mem_collapseGo (l : List Char) :
    ∀ (flag : Bool), ∀ c ∈ Shared.collapseGo flag l, Shared.isSlugChar c = true := by
  induction l with
  | nil => intro flag c hc; simp [Shared.collapseGo] at hc
  | cons a t ih =>
    intro flag c hc
    unfold Shared.collapseGo at hc
    by_cases ha : Shared.isSlugAlnum a = true
    · rw [if_pos ha] at hc
      rcases List.mem_cons.mp hc with rfl | hc'
      · simp [Shared.isSlugChar, ha]
      · exact ih false c hc'
    · rw [if_neg ha] at hc
      cases flag with
      | true =>
        rw [if_pos rfl] at hc
        exact ih true c hc
      | false =>
        rw [if_neg (by simp)] at hc
        rcases List.mem_cons.mp hc with rfl | hc'
        · decide
        · exact ih true c hc'

/-- After a hyphen was just emitted, the scan never emits a hyphen first:
in-run mode starts with an alphanumeric rune or ends. -/
theorem head_collapseGo_true (l : List Char) :
    ∀ b, (Shared.collapseGo true l).head? = some b → Shared.isSlugAlnum b = true := by
  induction l with
  | nil => intro b hb; simp [Shared.collapseGo] at hb
  | cons a t ih =>
    intro b hb
    unfold Shared.collapseGo at hb
    by_cases ha : Shared.isSlugAlnum a = true
    · rw [if_pos ha] at hb
      simp only [List.head?_cons, Option.some.injEq] at hb
      subst hb
      exact ha
    · rw [if_neg ha, if_pos rfl] at hb
      exact ih b hb

/-- The run-collapsing scan never emits two adjacent hyphens. -/
theorem ndh_collapseGo (l : List Char) :
    ∀ (flag : Bool), noDoubleHyphen (Shared.collapseGo flag l) = true := by
  induction l with
  | nil => intro flag; rfl
  | cons a t ih =>
    intro flag
    unfold Shared.collapseGo
    by_cases ha : Shared.isSlugAlnum a = true
    · rw [if_pos ha]
      refine ndh_cons_of a _ ?_ (ih false)
      intro b hb hab
      exact slugAlnum_ne_hyphen a ha hab.1
    · rw [if_neg ha]
      cases flag with
      | true =>
        rw [if_pos rfl]
        exact ih true
      | false =>
        rw [if_neg (by simp)]
        refine ndh_cons_of '-' _ ?_ (ih true)
        intro b hb hab
        exact slugAlnum_ne_hyphen b (head_collapseGo_true t b hb) hab.2

/-- The run-collapsing scan fixes a list that is already a well-formed
slug interior: slug runes only, no hyphen runs, no trailing hyphen. -/
theorem collapseGo_fixed : ∀ (l : List Char), (∀ c ∈ l, Shared.isSlugChar c = true) →
    noDoubleHyphen l = true → l.getLast? ≠ some '-' → Shared.collapseGo false l = l
  | [], _, _, _ => rfl
  | c :: rest, hc, hnd, hl => by
    by_cases ha : Shared.isSlugAlnum c = true
    · unfold Shared.collapseGo
      rw [if_pos ha]
      congr 1
      cases rest with
      | nil => rfl
      | cons d rest' =>
        exact collapseGo_fixed (d :: rest') (fun x hx => hc x (by simp [hx]))
          (ndh_tail c _ hnd) (by rwa [List.getLast?_cons_cons] at hl)
    · have hch := hc c (by simp)
      have hch' : c = '-' := by
        rcases slugChar_cases c hch with h1 | h1
        · exact absurd h1 ha
        · exact h1
      subst hch'
      cases rest with
      | nil => simp at hl
      | cons d rest' =>
        have hd : Shared.isSlugAlnum d = true := by
          have hdch := hc d (by simp)
          have hpair := ndh_head_pair '-' d rest' hnd
          refine slugChar_alnum_of_ne d hdch ?_
          intro hdh
          exact hpair ⟨rfl, hdh⟩
        have hl' : rest'.getLast? ≠ some '-' := by
          cases rest' with
          | nil => simp
          | cons e r =>
            rw [List.getLast?_cons_cons, List.getLast?_cons_cons] at hl
            exact hl
        unfold Shared.collapseGo
        rw [if_neg ha, if_neg (by simp)]
        congr 1
        unfold Shared.collapseGo
        rw [if_pos hd]
        congr 1
        exact collapseGo_fixed rest' (fun x hx => hc x (by simp [hx]))
          (ndh_tail d rest' (ndh_tail '-' (d :: rest') hnd)) hl'

/-- Dropping a prefix by a predicate nothing satisfies is the identity. -/
theorem dropWhile_eq_self_of_head (p : Char → Bool) (l : List Char)
    (h : ∀ b, l.head? = some b → p b = false) : l.dropWhile p = l := by
  cases l with
  | nil => rfl
  | cons a t =>
    rw [List.dropWhile_cons, h a rfl]
    simp

/-- The head surviving a `dropWhile` fails the predicate. -/
theorem head?_dropWhile (p : Char → Bool) (l : List Char) :
    ∀ b, (l.dropWhile p).head? = some b → p b = false := by
  induction l with
  | nil => intro b hb; simp at hb
  | cons a t ih =>
    intro b hb
    rw [List.dropWhile_cons] at hb
    by_cases hpa : p a = true
    · rw [if_pos hpa] at hb
      exact ih b hb
    · rw [if_neg hpa] at hb
      simp only [List.head?_cons, Option.some.injEq] at hb
      subst hb
      exact Bool.not_eq_true _ ▸ hpa

/-- Decomposition of `dropRightWhile`: the kept prefix plus the dropped
suffix is the original list. -/
theorem dropRightWhile_append (p : Char → Bool) (l : List Char) :
    Kernel.dropRightWhile p l ++ (l.reverse.takeWhile p).reverse = l := by
  unfold Kernel.dropRightWhile
  rw [← List.reverse_append, List.takeWhile_append_dropWhile, List.reverse_reverse]

/-- Members of the kept prefix of `dropRightWhile` are members of the
original list. -/
theorem mem_of_mem_dropRightWhile (p : Char → Bool) (l : List Char) (c : Char)
    (h : c ∈ Kernel.dropRightWhile p l) : c ∈ l := by
  have := dropRightWhile_append p l
  rw [← this]
  exact List.mem_append_left _ h

/-- Members surviving a `dropWhile` are members of the original list. -/
theorem mem_of_mem_dropWhile (p : Char → Bool) (l : List Char) (c : Char)
    (h : c ∈ l.dropWhile p) : c ∈ l := by
  have := List.takeWhile_append_dropWhile p l
  rw [← this]
  exact List.mem_append_right _ h

/-- The last element surviving `dropRightWhile` fails the predicate. -/
theorem getLast?_dropRightWhile (p : Char → Bool) (l : List Char) :
    ∀ b, (Kernel.dropRightWhile p l).getLast? = some b → p b = false := by
  intro b hb
  unfold Kernel.dropRightWhile at hb
  rw [List.getLast?_reverse] at hb
  exact head?_dropWhile p l.reverse b hb

/-- The function `dropRightWhile` keeps something as soon as one element fails the
predicate. -/
theorem dropRightWhile_ne_nil (p : Char → Bool) (l : List Char) (c : Char)
    (hc : c ∈ l) (hpc : p c = false) : Kernel.dropRightWhile p l ≠ [] := by
  intro hnil
  unfold Kernel.dropRightWhile at hnil
  have : l.reverse.dropWhile p = [] := by
    have := congrArg List.reverse hnil
    simpa using this
  have hall := List.dropWhile_eq_nil_iff.mp this
  have := hall c (by simpa using hc)
  rw [hpc] at this
  cases this

/-- The head of a nonempty `dropRightWhile` result is the original head. -/
theorem head?_dropRightWhile (p : Char → Bool) (l : List Char)
    (hne : Kernel.dropRightWhile p l ≠ []) :
    (Kernel.dropRightWhile p l).head? = l.head? := by
  conv_rhs => rw [← dropRightWhile_append p l]
  exact (List.head?_append_of_ne_nil _ hne).symm

/-- Applying `dropRightWhile` with a predicate the last element fails is the
identity. -/
theorem dropRightWhile_eq_self_of_getLast (p : Char → Bool) (l : List Char)
    (h : ∀ b, l.getLast? = some b → p b = false) : Kernel.dropRightWhile p l = l := by
  unfold Kernel.dropRightWhile
  rw [dropWhile_eq_self_of_head p l.reverse, List.reverse_reverse]
  intro b hb
  rw [List.head?_reverse] at hb
  exact h b hb

/-- Hyphen trimming fixes a list with no hyphen at either end. -/
theorem trimHyphens_eq_self (l : List Char) (hh : l.head? ≠ some '-')
    (hl : l.getLast? ≠ some '-') : Shared.trimHyphens l = l := by
  unfold Shared.trimHyphens
  rw [dropWhile_eq_self_of_head _ l, dropRightWhile_eq_self_of_getLast _ l]
  · intro b hb
    simp only [decide_eq_false_iff_not]
    intro hb'
    subst hb'
    exact hl hb
  · intro b hb
    simp only [decide_eq_false_iff_not]
    intro hb'
    subst hb'
    exact hh hb

/-- Members of a hyphen-trimmed list are members of the original. -/
theorem mem_of_mem_trimHyphens (l : List Char) (c : Char)
    (h : c ∈ Shared.trimHyphens l) : c ∈ l := by
  unfold Shared.trimHyphens at h
  exact mem_of_mem_dropWhile _ l c (mem_of_mem_dropRightWhile _ _ c h)

/-- Hyphen trimming preserves hyphen-run freedom. -/
theorem ndh_trimHyphens (l : List Char) (h : noDoubleHyphen l = true) :
    noDoubleHyphen (Shared.trimHyphens l) = true := by
  unfold Shared.trimHyphens
  have h1 : noDoubleHyphen (l.dropWhile (fun c => decide (c = '-'))) = true := by
    refine ndh_append_right (l.takeWhile (fun c => decide (c = '-'))) _ ?_
    rw [List.takeWhile_append_dropWhile]
    exact h
  refine ndh_append_left _ ((l.dropWhile (fun c => decide (c = '-'))).reverse.takeWhile
    (fun c => decide (c = '-'))).reverse ?_
  rw [dropRightWhile_append]
  exact h1

/-- A head surviving hyphen trimming is not a hyphen. -/
theorem head?_trimHyphens_ne (l : List Char) (b : Char)
    (h : (Shared.trimHyphens l).head? = some b) : b ≠ '-' := by
  unfold Shared.trimHyphens at h
  by_cases hne : Kernel.dropRightWhile (fun c => decide (c = '-'))
      (l.dropWhile (fun c => decide (c = '-'))) = []
  · rw [hne] at h; simp at h
  · rw [head?_dropRightWhile _ _ hne] at h
    have := head?_dropWhile _ _ b h
    simpa using this

/-- A last element surviving hyphen trimming is not a hyphen. -/
theorem getLast?_trimHyphens_ne (l : List Char) (b : Char)
    (h : (Shared.trimHyphens l).getLast? = some b) : b ≠ '-' := by
  unfold Shared.trimHyphens at h
  have := getLast?_dropRightWhile _ _ b h
  simpa using this

/-- Taking a positive prefix preserves the head. -/
theorem head?_take_pos (n : Nat) (l : List Char) (hn : 0 < n) :
    (l.take n).head? = l.head? := by
  cases l with
  | nil => simp
  | cons a t =>
    cases n with
    | zero => exact absurd hn (by simp)
    | succ m => simp [List.take_succ_cons]

/-- The trimmed collapse output is a well-formed slug as soon as it is
nonempty. -/
theorem slugOutputOK_trimmed (m : List Char)
    (hne : Shared.trimHyphens (Shared.collapseNonAlnum m) ≠ []) :
    slugOutputOK (Shared.trimHyphens (Shared.collapseNonAlnum m)) := by
  refine ⟨hne, ?_, ?_, ?_, ?_⟩
  · intro c hc
    exact mem_collapseGo m false c (mem_of_mem_trimHyphens _ c hc)
  · exact ndh_trimHyphens _ (ndh_collapseGo m false)
  · intro hh
    exact head?_trimHyphens_ne _ '-' hh rfl
  · intro hl
    exact getLast?_trimHyphens_ne _ '-' hl rfl

/-- Truncating a well-formed slug to a positive length and re-trimming
trailing hyphens yields a well-formed slug no longer than the bound. -/
theorem slugOutputOK_truncate (l : List Char) (h : slugOutputOK l) (n : Nat) (hn : 0 < n) :
    slugOutputOK (Kernel.dropRightWhile (fun c => decide (c = '-')) (l.take n)) ∧
    (Kernel.dropRightWhile (fun c => decide (c = '-')) (l.take n)).length ≤ n := by
  obtain ⟨hne, hchars, hndh, hhead, hlast⟩ := h
  obtain ⟨b, hb⟩ : ∃ b, l.head? = some b := by
    cases hh : l.head? with
    | none => exact absurd (List.head?_eq_none_iff.mp hh) hne
    | some b => exact ⟨b, rfl⟩
  have hbne : b ≠ '-' := fun hb' => hhead (hb' ▸ hb)
  have hbtake : (l.take n).head? = some b := by rw [head?_take_pos n l hn]; exact hb
  have hbmem : b ∈ l.take n := List.mem_of_mem_head? hbtake
  have hpb : (fun c => decide (c = '-')) b = false := by
    simp only [decide_eq_false_iff_not]
    exact hbne
  have hdne : Kernel.dropRightWhile (fun c => decide (c = '-')) (l.take n) ≠ [] :=
    dropRightWhile_ne_nil _ _ b hbmem hpb
  have hndh_take : noDoubleHyphen (l.take n) = true := by
    refine ndh_append_left _ (l.drop n) ?_
    rw [List.take_append_drop]
    exact hndh
  refine ⟨⟨hdne, ?_, ?_, ?_, ?_⟩, ?_⟩
  · intro c hc
    exact hchars c (List.mem_of_mem_take (mem_of_mem_dropRightWhile _ _ c hc))
  · refine ndh_append_left _ (((l.take n).reverse.takeWhile
      (fun c => decide (c = '-'))).reverse) ?_
    rw [dropRightWhile_append]
    exact hndh_take
  · intro hh
    rw [head?_dropRightWhile _ _ hdne, hbtake] at hh
    injection hh with hx
    exact hbne hx
  · intro hl
    have := getLast?_dropRightWhile _ _ '-' hl
    simp at this
  · have hlen : (Kernel.dropRightWhile (fun c => decide (c = '-')) (l.take n)).length ≤
        (l.take n).length := by
      have hdec := dropRightWhile_append (fun c => decide (c = '-')) (l.take n)
      have := congrArg List.length hdec
      rw [List.length_append] at this
      omega
    rw [List.length_take] at hlen
    omega

set_option maxHeartbeats 1000000 in
/-- Any successful `generateSlug` result is a well-formed slug of at most
`MaxSlugLength` runes. -/
theorem generateSlug_ok_output (x s : String) (h : Shared.generateSlug x = .ok s) :
    slugOutputOK s.data ∧ s.data.length ≤ Shared.MaxSlugLength := by
  unfold Shared.generateSlug at h
  dsimp only at h
  split at h
  · cases h
  · split at h
    · cases h
    · rename_i hcheck
      simp only [Bool.or_eq_true, decide_eq_true_eq, Bool.not_eq_true', not_or] at hcheck
      obtain ⟨hne, hca⟩ := hcheck
      split at h
      · rename_i hlen
        injection h with hs
        subst hs
        dsimp only
        exact slugOutputOK_truncate _ (slugOutputOK_trimmed _ hne) Shared.MaxSlugLength
          (by norm_num [Shared.MaxSlugLength, Shared.MaxTitleLength])
      · rename_i hlen
        injection h with hs
        subst hs
        dsimp only
        exact ⟨slugOutputOK_trimmed _ hne, by omega⟩

/-- A last element is a member. -/
theorem mem_of_getLast?_eq (l : List Char) (b : Char) (h : l.getLast? = some b) : b ∈ l := by
  rw [← List.head?_reverse] at h
  have := List.mem_of_mem_head? h
  simpa using this

set_option maxHeartbeats 1000000 in
/-- The generator `generateSlug` fixes every well-formed slug of admissible length: each
pipeline stage is the identity on such strings. -/
theorem generateSlug_fixed (s : String) (hOK : slugOutputOK s.data)
    (hlen : s.data.length ≤ Shared.MaxSlugLength) : Shared.generateSlug s = .ok s := by
  obtain ⟨hne, hchars, hndh, hhead, hlast⟩ := hOK
  have htrim : Kernel.goTrimSpace s = s := by
    unfold Kernel.goTrimSpace Kernel.goTrimSpaceList
    rw [dropWhile_eq_self_of_head _ _
        (fun b hb => slugChar_not_space b (hchars b (List.mem_of_mem_head? hb))),
      dropRightWhile_eq_self_of_getLast _ _
        (fun b hb => slugChar_not_space b (hchars b (mem_of_getLast?_eq _ b hb)))]
  have hsne : s ≠ "" := by
    intro h'
    apply hne
    rw [h']
  have htl : Shared.transliterate s = s := by
    unfold Shared.transliterate
    rw [flatten_map_singleton _ s.data (fun c hc => by
      show (match Shared.transliterationMap.lookup c with
        | some r => r.data
        | none => [c]) = [c]
      rw [translit_lookup_none c (hchars c hc)])]
  have hlow : Shared.goToLower s = s := by
    unfold Shared.goToLower
    rw [map_eq_self_of_fixed _ _ (fun c hc => goToLowerChar_fixed c (hchars c hc))]
  have hacc : Shared.removeAccents s = s := by
    unfold Shared.removeAccents
    rw [flatten_map_singleton _ _ (fun c hc => stripMarkChar_fixed c (hchars c hc))]
  have hcol : Shared.collapseNonAlnum s.data = s.data := by
    unfold Shared.collapseNonAlnum
    exact collapseGo_fixed s.data hchars hndh hlast
  have htrimh : Shared.trimHyphens s.data = s.data := trimHyphens_eq_self s.data hhead hlast
  have hca : Shared.containsAlphanumeric s.data = true := by
    obtain ⟨b, hb⟩ : ∃ b, s.data.head? = some b := by
      cases hh : s.data.head? with
      | none => exact absurd (List.head?_eq_none_iff.mp hh) hne
      | some b => exact ⟨b, rfl⟩
    have hmem := List.mem_of_mem_head? hb
    have halnum := slugChar_alnum_of_ne b (hchars b hmem) (fun h' => hhead (h' ▸ hb))
    unfold Shared.containsAlphanumeric
    rw [List.any_eq_true]
    exact ⟨b, hmem, halnum⟩
  have hcheck : ¬((decide (s.data = []) || !Shared.containsAlphanumeric s.data) = true) := by
    simp only [Bool.or_eq_true, decide_eq_true_eq, Bool.not_eq_true', not_or]
    exact ⟨hne, by rw [hca]; simp⟩
  unfold Shared.generateSlug
  dsimp only
  rw [htrim, if_neg hsne, htl, hlow, hacc, hcol, htrimh, if_neg hcheck,
    if_neg (by omega : ¬(s.data.length > Shared.MaxSlugLength))]

/-- The slug regex automaton accepts any hyphen-run-free slug-rune tail
that does not end in a hyphen. -/
theorem slugDFA_of_inv : ∀ (l : List Char), (∀ c ∈ l, Shared.isSlugChar c = true) →
    noDoubleHyphen l = true → l.getLast? ≠ some '-' → Shared.slugDFA true l = true
  | [], _, _, _ => rfl
  | [c], hc, hnd, hl => by
    have hch := hc c (by simp)
    have hcne : c ≠ '-' := by
      intro h'
      apply hl
      rw [h']
      rfl
    have halnum := slugChar_alnum_of_ne c hch hcne
    unfold Shared.slugDFA
    rw [if_pos halnum]
    rfl
  | c :: d :: rest, hc, hnd, hl => by
    by_cases ha : Shared.isSlugAlnum c = true
    · unfold Shared.slugDFA
      rw [if_pos ha]
      exact slugDFA_of_inv (d :: rest) (fun x hx => hc x (by simp [hx]))
        (ndh_tail c _ hnd) (by rwa [List.getLast?_cons_cons] at hl)
    · have hch := hc c (by simp)
      have hch' : c = '-' := by
        rcases slugChar_cases c hch with h1 | h1
        · exact absurd h1 ha
        · exact h1
      subst hch'
      have hd : Shared.isSlugAlnum d = true := by
        have hdch := hc d (by simp)
        have hpair := ndh_head_pair '-' d rest hnd
        exact slugChar_alnum_of_ne d hdch (fun hdh => hpair ⟨rfl, hdh⟩)
      have hl' : rest.getLast? ≠ some '-' := by
        cases rest with
        | nil => simp
        | cons e r =>
          rw [List.getLast?_cons_cons, List.getLast?_cons_cons] at hl
          exact hl
      unfold Shared.slugDFA
      rw [if_neg ha, if_pos (by decide)]
      unfold Shared.slugDFA
      rw [if_pos hd]
      exact slugDFA_of_inv rest (fun x hx => hc x (by simp [hx]))
        (ndh_tail d rest (ndh_tail '-' (d :: rest) hnd)) hl'

/-- Any well-formed slug matches the slug format regex. -/
theorem slugFormatMatch_of_OK (s : String) (h : slugOutputOK s.data) :
    Shared.slugFormatMatch s = true := by
  obtain ⟨hne, hchars, hndh, hhead, hlast⟩ := h
  unfold Shared.slugFormatMatch
  cases hd : s.data with
  | nil => exact absurd hd hne
  | cons c rest =>
    rw [hd] at hchars hndh hhead hlast
    have hcne : c ≠ '-' := by
      intro h'
      exact hhead (by rw [h']; rfl)
    have halnum := slugChar_alnum_of_ne c (hchars c (by simp)) hcne
    have hdfa : Shared.slugDFA true rest = true := by
      refine slugDFA_of_inv rest (fun x hx => hchars x (by simp [hx]))
        (ndh_tail c rest hndh) ?_
      cases rest with
      | nil => simp
      | cons e r =>
        rw [List.getLast?_cons_cons] at hlast
        exact hlast
    simp [halnum, hdfa]

/-- C5: `generateSlug` is idempotent on its own outputs: whenever it
succeeds with result s, running it again on s succeeds with s itself. -/
theorem c5_generateSlug_idempotent (x s : String) (h : Shared.generateSlug x = .ok s) :
    Shared.generateSlug s = .ok s := by
  obtain ⟨hOK, hlen⟩ := generateSlug_ok_output x s h
  exact generateSlug_fixed s hOK hlen

/-- C5 witness: the spec example input produces "cafe-culture", on which
`generateSlug` is a fixed point. -/
theorem c5_generateSlug_idempotent_witness :
    Shared.generateSlug "cafe-culture" = .ok "cafe-culture" :=
  c5_generateSlug_idempotent "Café & Culture" "cafe-culture" (by rfl)

/-- C6: every successful `generateSlug` result matches
`^[a-z0-9]+(-[a-z0-9]+)*$` and has at most MaxSlugLength (110) runes. -/
theorem c6_generateSlug_format (x s : String) (h : Shared.generateSlug x = .ok s) :
    Shared.slugFormatMatch s = true ∧ s.length ≤ Shared.MaxSlugLength := by
  obtain ⟨hOK, hlen⟩ := generateSlug_ok_output x s h
  exact ⟨slugFormatMatch_of_OK s hOK, hlen⟩

/-- C6 witness: the spec example output matches the slug format and the
length bound. -/
theorem c6_generateSlug_format_witness :
    Shared.slugFormatMatch "cafe-culture" = true ∧
    String.length "cafe-culture" ≤ Shared.MaxSlugLength :=
  c6_generateSlug_format "Café & Culture" "cafe-culture" (by rfl)
